import Mathlib

/-!
Verification of the indicator engine and its collaborators in a
stock-analysis dashboard.  The Python source computes MACD (seeded EMAs
over the close series) and KDJ (a rolling stochastic with a recursive
1/3–2/3 smoothing) in `compute_macd_kdj`, derives trade-signal text from
the last indicator row, and substitutes deterministic seeded synthetic
data when the remote fetch is unavailable.

Numeric series are embedded exactly: a float value is a rational extended
with the IEEE special values (`nan`, `pinf`, `ninf`), so that the numpy
semantics of `0/0`, `x/0` and NaN propagation are captured without any
rounding concerns (all coefficients in the source, 2/3, 1/3, 2/13, ...,
are exact rationals here).
-/

/-! ## Definitions -/

/-- A pandas/numpy float value, idealized to exact arithmetic: either NaN,
+infinity, -infinity, or a finite rational. -/
inductive PFloat where
  | nan : PFloat
  | pinf : PFloat
  | ninf : PFloat
  | val : ℚ → PFloat
deriving DecidableEq

namespace PFloat

/-- Mirrors `np.isnan`. -/
def isnan : PFloat → Bool
  | nan => true
  | _ => false

/-- True exactly on finite values. -/
def isVal : PFloat → Bool
  | val _ => true
  | _ => false

/-- IEEE negation. -/
def neg : PFloat → PFloat
  | nan => nan
  | pinf => ninf
  | ninf => pinf
  | val q => val (-q)

/-- IEEE addition (no rounding): opposite infinities give NaN, NaN
propagates. -/
def add : PFloat → PFloat → PFloat
  | nan, _ => nan
  | _, nan => nan
  | pinf, ninf => nan
  | ninf, pinf => nan
  | pinf, _ => pinf
  | _, pinf => pinf
  | ninf, _ => ninf
  | _, ninf => ninf
  | val a, val b => val (a + b)

/-- IEEE multiplication (no rounding): `0 × ∞` gives NaN, NaN propagates. -/
def mul : PFloat → PFloat → PFloat
  | nan, _ => nan
  | _, nan => nan
  | pinf, pinf => pinf
  | pinf, ninf => ninf
  | ninf, pinf => ninf
  | ninf, ninf => pinf
  | pinf, val q => if 0 < q then pinf else if q < 0 then ninf else nan
  | val q, pinf => if 0 < q then pinf else if q < 0 then ninf else nan
  | ninf, val q => if 0 < q then ninf else if q < 0 then pinf else nan
  | val q, ninf => if 0 < q then ninf else if q < 0 then pinf else nan
  | val a, val b => val (a * b)

/-- IEEE division (no rounding): `0/0` and `∞/∞` give NaN, `x/0` gives a
signed infinity for `x ≠ 0` (numpy float division raises no exception). -/
def div : PFloat → PFloat → PFloat
  | nan, _ => nan
  | _, nan => nan
  | pinf, pinf => nan
  | pinf, ninf => nan
  | ninf, pinf => nan
  | ninf, ninf => nan
  | pinf, val q => if 0 ≤ q then pinf else ninf
  | ninf, val q => if 0 ≤ q then ninf else pinf
  | val _, pinf => val 0
  | val _, ninf => val 0
  | val a, val b =>
      if b = 0 then (if a = 0 then nan else if 0 < a then pinf else ninf)
      else val (a / b)

/-- IEEE strict-less-than: any comparison with NaN is false (this is how
the Python `>` / `<` on the last indicator row behaves on missing data). -/
def lt : PFloat → PFloat → Bool
  | nan, _ => false
  | _, nan => false
  | ninf, ninf => false
  | ninf, _ => true
  | _, ninf => false
  | pinf, _ => false
  | val _, pinf => true
  | val a, val b => decide (a < b)

instance : Add PFloat := ⟨add⟩
instance : Sub PFloat := ⟨fun x y => add x (neg y)⟩
instance : Mul PFloat := ⟨mul⟩
instance : Neg PFloat := ⟨neg⟩
instance : Div PFloat := ⟨div⟩
instance : Inhabited PFloat := ⟨nan⟩

end PFloat

/-! ### Seeded exponential moving average

`Series.ewm(span=s, adjust=False).mean()` computes `y[0] = x[0]`,
`y[i] = a·x[i] + (1 − a)·y[i−1]` with `a = 2/(s+1)`. -/

/-- The EMA recurrence after the seed value `p`. -/
def ewmFrom (a p : PFloat) : List PFloat → List PFloat
  | [] => []
  | x :: xs => (a * x + (PFloat.val 1 - a) * p) ::
      ewmFrom a (a * x + (PFloat.val 1 - a) * p) xs

/-- Pandas `ewm(span, adjust=False).mean()`: seeded with the first element. -/
def ewm (a : PFloat) : List PFloat → List PFloat
  | [] => []
  | x :: xs => x :: ewmFrom a x xs

/-- One row of the price DataFrame handed to `compute_macd_kdj` (all three
columns present, as supplied by `fetch_price_data`). -/
structure Row where
  high : ℚ
  low : ℚ
  close : ℚ
deriving DecidableEq

instance : Inhabited Row := ⟨⟨0, 0, 0⟩⟩

/-- Pandas `df['low'].rolling(9).min()` at index `i`: `none` (NaN) until
nine rows are available, otherwise the window minimum. -/
def low_min (rows : List Row) (i : ℕ) : Option ℚ :=
  if 9 ≤ i + 1 then
    match ((rows.map Row.low).take (i+1)).drop (i+1-9) with
    | [] => none
    | x :: xs => some (xs.foldl min x)
  else none

/-- Pandas `df['high'].rolling(9).max()` at index `i`. -/
def high_max (rows : List Row) (i : ℕ) : Option ℚ :=
  if 9 ≤ i + 1 then
    match ((rows.map Row.high).take (i+1)).drop (i+1-9) with
    | [] => none
    | x :: xs => some (xs.foldl max x)
  else none

/-- Inject a rolling-window result into float land (`none` is NaN). -/
def optP : Option ℚ → PFloat
  | none => PFloat.nan
  | some q => PFloat.val q

/-- `rsv = (close − low_min) / (high_max − low_min) * 100` with numpy
semantics at index `i`. -/
def rsvAt (rows : List Row) (i : ℕ) : PFloat :=
  ((PFloat.val (rows.getD i default).close - optP (low_min rows i)) /
      (optP (high_max rows i) - optP (low_min rows i))) * PFloat.val 100

/-- The full RSV series. -/
def rsvList (rows : List Row) : List PFloat :=
  (List.range rows.length).map (rsvAt rows)

/-- The `k_prev, d_prev` selection of the loop body: seed `50, 50` when
there is no previous row (`i == 0`) or the previous K is NaN. -/
def kdPrev : Option (PFloat × PFloat) → PFloat × PFloat
  | none => (PFloat.val 50, PFloat.val 50)
  | some (kp, dp) =>
      if kp.isnan then (PFloat.val 50, PFloat.val 50) else (kp, dp)

/-- One iteration of the KDJ loop: NaN RSV appends NaN K and D, otherwise
`k = 2/3·k_prev + 1/3·rsv`, `d = 2/3·d_prev + 1/3·k`. -/
def kdStep (prev : Option (PFloat × PFloat)) (r : PFloat) : PFloat × PFloat :=
  if r.isnan then (PFloat.nan, PFloat.nan)
  else
    let pd := kdPrev prev
    let k_now := PFloat.val (2/3) * pd.1 + PFloat.val (1/3) * r
    let d_now := PFloat.val (2/3) * pd.2 + PFloat.val (1/3) * k_now
    (k_now, d_now)

/-- The ascending scan of the KDJ loop, carrying the last appended pair. -/
def kdjGo (prev : Option (PFloat × PFloat)) :
    List PFloat → List (PFloat × PFloat)
  | [] => []
  | r :: rs => kdStep prev r :: kdjGo (some (kdStep prev r)) rs

/-- `j = 3k − 2d if not isnan(k) else nan`. -/
def jOf (k d : PFloat) : PFloat :=
  if k.isnan then PFloat.nan else PFloat.val 3 * k - PFloat.val 2 * d

/-- The close column as floats. -/
def closesP (rows : List Row) : List PFloat :=
  rows.map fun r => PFloat.val r.close

/-- `df['close'].ewm(span=12, adjust=False).mean()`, `a = 2/13`. -/
def short_ema (rows : List Row) : List PFloat :=
  ewm (PFloat.val (2/13)) (closesP rows)

/-- `df['close'].ewm(span=26, adjust=False).mean()`, `a = 2/27`. -/
def long_ema (rows : List Row) : List PFloat :=
  ewm (PFloat.val (2/27)) (closesP rows)

/-- `dif = short_ema - long_ema`. -/
def difList (rows : List Row) : List PFloat :=
  List.zipWith (fun x y => x - y) (short_ema rows) (long_ema rows)

/-- `dea = dif.ewm(span=9, adjust=False).mean()`, `a = 2/10`. -/
def deaList (rows : List Row) : List PFloat :=
  ewm (PFloat.val (2/10)) (difList rows)

/-- `macd_bar = 2 * (dif - dea)`. -/
def macdList (rows : List Row) : List PFloat :=
  List.zipWith (fun x y => PFloat.val 2 * (x - y)) (difList rows) (deaList rows)

/-- The K/D pairs produced by the loop over the RSV series. -/
def kdList (rows : List Row) : List (PFloat × PFloat) :=
  kdjGo none (rsvList rows)

def kList (rows : List Row) : List PFloat := (kdList rows).map Prod.fst

def dList (rows : List Row) : List PFloat := (kdList rows).map Prod.snd

def jList (rows : List Row) : List PFloat :=
  List.zipWith jOf (kList rows) (dList rows)

/-- The indicator columns the engine adds to the DataFrame (plus the
intermediate RSV series, which the claims reference). -/
structure Indic where
  dif : List PFloat
  dea : List PFloat
  macd : List PFloat
  rsv : List PFloat
  k : List PFloat
  d : List PFloat
  j : List PFloat

/-- The engine: MACD via seeded EMAs, KDJ via the rolling stochastic and
the recursive smoothing loop. -/
def compute_macd_kdj (rows : List Row) : Indic :=
  ⟨difList rows, deaList rows, macdList rows, rsvList rows,
    kList rows, dList rows, jList rows⟩

/-! ### Classification of K/D pairs

The loop invariants used for the definedness-coupling claims: the K and D
emitted at one index are always in the same class (both NaN, both finite,
both +inf or both -inf). -/

def PairOk (p : PFloat × PFloat) : Prop :=
  (p.1.isnan = true ∧ p.2.isnan = true) ∨
  (p.1.isVal = true ∧ p.2.isVal = true) ∨
  (p.1 = PFloat.pinf ∧ p.2 = PFloat.pinf) ∨
  (p.1 = PFloat.ninf ∧ p.2 = PFloat.ninf)

def PairFin (p : PFloat × PFloat) : Prop :=
  (p.1.isnan = true ∧ p.2.isnan = true) ∨
  (p.1.isVal = true ∧ p.2.isVal = true)

/-! ### Signal derivation (`main`, the block after the charts)

The Python builds `signals` from the last indicator row with two
if/elif chains and prints `"暂无明显信号"` when the list stays empty. -/

/-- The `signals` list assembled from the last row's DIF/DEA/MACD/J. -/
def signalsOf (difv deav macdv jv : PFloat) : List String :=
  (if PFloat.lt deav difv && PFloat.lt (PFloat.val 0) macdv then
      ["MACD金叉/上涨动能"]
    else if PFloat.lt difv deav && PFloat.lt macdv (PFloat.val 0) then
      ["MACD死叉/下跌动能"]
    else []) ++
  (if PFloat.lt jv (PFloat.val 20) then ["KDJ超卖区"]
    else if PFloat.lt (PFloat.val 80) jv then ["KDJ超买区"]
    else [])

/-- The text shown to the user: the joined signals, or the no-signal
message when none fired. -/
def signalText (difv deav macdv jv : PFloat) : String :=
  if (signalsOf difv deav macdv jv).isEmpty then "暂无明显信号"
  else String.intercalate "，" (signalsOf difv deav macdv jv)

/-! ### Data acquisition fallback (`fetch_price_data`, `fetch_financial_metrics`)

Only the fallback branch is modelled (akshare absent or the fetch raised):
the branch seeds numpy's global RNG from `abs(hash(stock_code)) % 2**32`
and generates a synthetic random walk.  `hashv` stands for the Python
`abs(hash(stock_code))` of the requested ticker and `today` for the full
`dt.datetime.today()` value as a microsecond count: the source's
`pd.date_range(end=dt.datetime.today(), periods=days)` produces daily
timestamps each of which carries the invocation instant's time of day
(down to microseconds), so the date column distinguishes even two runs
made moments apart on the same calendar day. -/

/-- The global `np.random` state.  MT19937 is treated as an abstract
deterministic state machine: seeding overwrites the state, draws advance
it. -/
structure RngState where
  state : ℕ
deriving DecidableEq

/-- Stand-in deterministic step for the numpy generator (the MT19937
internals live outside this repository); every property proved about the
fallback uses only that draws are a pure function of the seeded state. -/
def rngNext (s : ℕ) : ℕ :=
  (6364136223846793005 * s + 1442695040888963407) % (2 ^ 64)

/-- One pseudo-random rational in `[0, 1)` from a state. -/
def rngOut (s : ℕ) : ℚ := ((rngNext s % 1000000 : ℕ) : ℚ) / 1000000

/-- Draw a batch of `n` floats, advancing the state (stand-in for
`np.random.randn(n)` and `np.random.rand(n)`, whose distributions are
irrelevant to the determinism claims). -/
def drawBatch : ℕ → RngState → List ℚ × RngState
  | 0, s => ([], s)
  | n+1, s =>
    (rngOut s.state :: (drawBatch n ⟨rngNext s.state⟩).1,
     (drawBatch n ⟨rngNext s.state⟩).2)

/-- `np.cumsum`. -/
def cumsum (xs : List ℚ) : List ℚ := (xs.scanl (· + ·) 0).drop 1

/-- One row of the synthetic price DataFrame. -/
structure PriceRow where
  date : ℤ
  high : ℚ
  low : ℚ
  close : ℚ
deriving DecidableEq

/-- Microseconds per day, the step of `pd.date_range(..., periods=days)`
between consecutive daily timestamps. -/
def usPerDay : ℤ := 86400000000

/-- Fallback branch of `fetch_price_data`:
`dates = pd.date_range(end=dt.datetime.today(), periods=days)` — the
timestamps `today − (days−1)·1day, ..., today`, every one carrying the
instant's time of day — then `np.random.seed(abs(hash(stock_code)) %
2**32)`, `price = cumsum(randn(days)) + 100`,
`high = price + rand(days)*2`, `low = price - rand(days)*2`.  The
incoming global RNG state is threaded explicitly; the function returns
the DataFrame rows and the state left behind. -/
def fetch_price_data (hashv : ℕ) (today : ℤ) (days : ℕ) (rng : RngState) :
    List PriceRow × RngState :=
  let dates : List ℤ :=
    (List.range days).map (fun i => today - usPerDay * ((days : ℤ) - 1 - (i : ℤ)))
  let s0 : RngState := ⟨hashv % 2 ^ 32⟩
  let g := drawBatch days s0
  let price := (cumsum g.1).map (fun x => x + 100)
  let u1 := drawBatch days g.2
  let high := List.zipWith (fun p u => p + u * 2) price u1.1
  let u2 := drawBatch days u1.2
  let low := List.zipWith (fun p u => p - u * 2) price u2.1
  ((List.range days).map (fun i =>
      ⟨dates.getD i 0, high.getD i 0, low.getD i 0, price.getD i 0⟩), u2.2)

/-- The four synthetic financial metrics. -/
structure Metrics where
  pe : ℚ
  pb : ℚ
  profit_growth : ℚ
  industry_pe : ℚ
deriving DecidableEq

/-- Stand-in for `np.round(x, 2)`. -/
def round2 (q : ℚ) : ℚ := ((round (q * 100) : ℤ) : ℚ) / 100

/-- Stand-in for `Generator.uniform(lo, hi)`. -/
def uniformDraw (lo hi : ℚ) (s : RngState) : ℚ × RngState :=
  (lo + (hi - lo) * rngOut s.state, ⟨rngNext s.state⟩)

/-- Fallback branch of `fetch_financial_metrics`: with every metric still
`None`, all four are filled from the fresh local generator
`np.random.default_rng(abs(hash(stock_code)) % 2**32)` (the global RNG is
neither read nor written). -/
def fetch_financial_metrics (hashv : ℕ) : Metrics :=
  let rng : RngState := ⟨hashv % 2 ^ 32⟩
  let x1 := uniformDraw 10 30 rng
  let pe := round2 x1.1
  let x2 := uniformDraw 1 5 x1.2
  let pb := round2 x2.1
  let x3 := uniformDraw (-10) 30 x2.2
  let pg := round2 x3.1
  let x4 := uniformDraw (8/10) (12/10) x3.2
  ⟨pe, pb, pg, round2 (pe * x4.1)⟩

/-! ### Concrete input series used by witnesses and counterexamples -/

/-- The ten-row scenario of the specification: closes
`[100, 102, 101, 105, 107, 106, 110, 108, 112, 115]`, `high = close + 1`,
`low = close − 1`. -/
def rows10 : List Row :=
  [⟨101, 99, 100⟩, ⟨103, 101, 102⟩, ⟨102, 100, 101⟩, ⟨106, 104, 105⟩,
   ⟨108, 106, 107⟩, ⟨107, 105, 106⟩, ⟨111, 109, 110⟩, ⟨109, 107, 108⟩,
   ⟨113, 111, 112⟩, ⟨116, 114, 115⟩]

/-- A three-row prefix of the same scenario (shorter than the KDJ window). -/
def rows3 : List Row :=
  [⟨101, 99, 100⟩, ⟨103, 101, 102⟩, ⟨102, 100, 101⟩]

/-- Nine identical rows: a flat window whose close equals the window
value. -/
def flatRows : List Row := List.replicate 9 ⟨100, 100, 100⟩

/-- Eight identical rows followed by one whose close escapes the flat
high/low window: the RSV denominator is zero while the numerator is 1. -/
def flatRows9 : List Row :=
  List.replicate 8 ⟨100, 100, 100⟩ ++ [⟨100, 100, 101⟩]

/-! ## Theorems -/

namespace PFloat

theorem add_def (x y : PFloat) : x + y = x.add y := rfl

theorem sub_def (x y : PFloat) : x - y = x.add y.neg := rfl

theorem mul_def (x y : PFloat) : x * y = x.mul y := rfl

theorem div_def (x y : PFloat) : x / y = x.div y := rfl

@[simp] theorem val_add_val (a b : ℚ) : val a + val b = val (a + b) := rfl

@[simp] theorem val_sub_val (a b : ℚ) : val a - val b = val (a - b) := by
  show add (val a) (neg (val b)) = _
  simp [add, neg, sub_eq_add_neg]

@[simp] theorem val_mul_val (a b : ℚ) : val a * val b = val (a * b) := rfl

@[simp] theorem nan_add (x : PFloat) : nan + x = nan := by
  cases x <;> rfl

@[simp] theorem add_nan (x : PFloat) : x + nan = nan := by
  cases x <;> rfl

@[simp] theorem nan_mul (x : PFloat) : nan * x = nan := by
  cases x <;> rfl

@[simp] theorem mul_nan (x : PFloat) : x * nan = nan := by
  cases x <;> rfl

@[simp] theorem nan_sub (x : PFloat) : nan - x = nan := by
  cases x <;> rfl

@[simp] theorem sub_nan (x : PFloat) : x - nan = nan := by
  cases x <;> rfl

@[simp] theorem val_add_pinf (a : ℚ) : val a + pinf = pinf := rfl

@[simp] theorem pinf_add_val (a : ℚ) : pinf + val a = pinf := rfl

@[simp] theorem val_add_ninf (a : ℚ) : val a + ninf = ninf := rfl

@[simp] theorem ninf_add_val (a : ℚ) : ninf + val a = ninf := rfl

@[simp] theorem pinf_add_pinf : pinf + pinf = pinf := rfl

@[simp] theorem ninf_add_ninf : ninf + ninf = ninf := rfl

@[simp] theorem pinf_add_ninf : pinf + ninf = nan := rfl

@[simp] theorem ninf_add_pinf : ninf + pinf = nan := rfl

theorem val_mul_pinf_of_pos {q : ℚ} (h : 0 < q) : val q * pinf = pinf := by
  show mul (val q) pinf = pinf
  simp [mul, h]

theorem val_mul_ninf_of_pos {q : ℚ} (h : 0 < q) : val q * ninf = ninf := by
  show mul (val q) ninf = ninf
  simp [mul, h]

@[simp] theorem isnan_val (q : ℚ) : (val q).isnan = false := rfl

@[simp] theorem isnan_pinf : pinf.isnan = false := rfl

@[simp] theorem isnan_ninf : ninf.isnan = false := rfl

@[simp] theorem isnan_nan : nan.isnan = true := rfl

@[simp] theorem isVal_val (q : ℚ) : (val q).isVal = true := rfl

@[simp] theorem isVal_nan : nan.isVal = false := rfl

@[simp] theorem isVal_pinf : pinf.isVal = false := rfl

@[simp] theorem isVal_ninf : ninf.isVal = false := rfl

theorem isVal_iff {x : PFloat} : x.isVal = true ↔ ∃ q, x = val q := by
  cases x <;> simp [isVal]

theorem isnan_iff {x : PFloat} : x.isnan = true ↔ x = nan := by
  cases x <;> simp [isnan]

theorem isVal_add {x y : PFloat} (hx : x.isVal = true) (hy : y.isVal = true) :
    (x + y).isVal = true := by
  obtain ⟨a, rfl⟩ := isVal_iff.mp hx
  obtain ⟨b, rfl⟩ := isVal_iff.mp hy
  simp

theorem isVal_sub {x y : PFloat} (hx : x.isVal = true) (hy : y.isVal = true) :
    (x - y).isVal = true := by
  obtain ⟨a, rfl⟩ := isVal_iff.mp hx
  obtain ⟨b, rfl⟩ := isVal_iff.mp hy
  simp

theorem isVal_mul {x y : PFloat} (hx : x.isVal = true) (hy : y.isVal = true) :
    (x * y).isVal = true := by
  obtain ⟨a, rfl⟩ := isVal_iff.mp hx
  obtain ⟨b, rfl⟩ := isVal_iff.mp hy
  simp

@[simp] theorem lt_nan (x : PFloat) : x.lt nan = false := by
  cases x <;> rfl

@[simp] theorem nan_lt (x : PFloat) : PFloat.lt nan x = false := by
  cases x <;> rfl

@[simp] theorem val_lt_val (a b : ℚ) : (val a).lt (val b) = decide (a < b) := rfl

@[simp] theorem nan_div (x : PFloat) : nan / x = nan := by
  cases x <;> rfl

@[simp] theorem div_nan (x : PFloat) : x / nan = nan := by
  cases x <;> rfl

end PFloat

/-! ### Generic list access lemmas -/

theorem getD_map_of_lt {α β : Type} (f : α → β) (xs : List α) :
    ∀ (i : ℕ) (da : α) (db : β), i < xs.length →
      (xs.map f).getD i db = f (xs.getD i da) := by
  induction xs with
  | nil => intro i da db h; simp at h
  | cons x xs ih =>
    intro i da db h
    cases i with
    | zero => rfl
    | succ i =>
      simpa [List.getD_cons_succ] using ih i da db (by simpa using h)

theorem getD_zipWith_of_lt {α β γ : Type} (f : α → β → γ) (xs : List α) :
    ∀ (ys : List β) (i : ℕ) (da : α) (db : β) (dc : γ),
      i < xs.length → i < ys.length →
      (List.zipWith f xs ys).getD i dc = f (xs.getD i da) (ys.getD i db) := by
  induction xs with
  | nil => intro ys i da db dc h _; simp at h
  | cons x xs ih =>
    intro ys i da db dc hx hy
    cases ys with
    | nil => simp at hy
    | cons y ys =>
      cases i with
      | zero => rfl
      | succ i =>
        simpa [List.getD_cons_succ] using
          ih ys i da db dc (by simpa using hx) (by simpa using hy)

theorem getD_range_map {α : Type} (f : ℕ → α) (n i : ℕ) (d : α) (h : i < n) :
    ((List.range n).map f).getD i d = f i := by
  rw [getD_map_of_lt f (List.range n) i 0 d (by simpa using h)]
  congr 1
  rw [List.getD_eq_getElem _ _ (by simpa using h)]
  simp

/-! ### Lemmas about the seeded EMA -/

theorem ewmFrom_length (a : PFloat) : ∀ (xs : List PFloat) (p : PFloat),
    (ewmFrom a p xs).length = xs.length := by
  intro xs
  induction xs with
  | nil => intro p; rfl
  | cons x xs ih => intro p; simp [ewmFrom, ih]

theorem ewm_length (a : PFloat) (xs : List PFloat) :
    (ewm a xs).length = xs.length := by
  cases xs with
  | nil => rfl
  | cons x xs => simp [ewm, ewmFrom_length]

theorem ewmFrom_getD_succ (a : PFloat) : ∀ (xs : List PFloat) (p : PFloat) (i : ℕ),
    i + 1 < xs.length →
    (ewmFrom a p xs).getD (i+1) PFloat.nan =
      a * xs.getD (i+1) PFloat.nan +
        (PFloat.val 1 - a) * (ewmFrom a p xs).getD i PFloat.nan := by
  intro xs
  induction xs with
  | nil => intro p i h; simp at h
  | cons x xs ih =>
    intro p i h
    cases i with
    | zero =>
      cases xs with
      | nil => simp at h
      | cons z rest => simp [ewmFrom]
    | succ i =>
      have h' : i + 1 < xs.length := by simpa using h
      simpa [ewmFrom, List.getD_cons_succ] using
        ih (a * x + (PFloat.val 1 - a) * p) i h'

theorem ewm_getD_succ (a : PFloat) (xs : List PFloat) (i : ℕ)
    (h : i + 1 < xs.length) :
    (ewm a xs).getD (i+1) PFloat.nan =
      a * xs.getD (i+1) PFloat.nan +
        (PFloat.val 1 - a) * (ewm a xs).getD i PFloat.nan := by
  cases xs with
  | nil => simp at h
  | cons x xs =>
    cases i with
    | zero =>
      cases xs with
      | nil => simp at h
      | cons z rest => simp [ewm, ewmFrom]
    | succ i =>
      have h' : i + 1 < xs.length := by simpa using h
      simpa [ewm, List.getD_cons_succ] using ewmFrom_getD_succ a xs x i h'

theorem ewmFrom_isVal (a : PFloat) (ha : a.isVal = true) :
    ∀ (xs : List PFloat) (p : PFloat), p.isVal = true →
      (∀ x ∈ xs, x.isVal = true) → ∀ y ∈ ewmFrom a p xs, y.isVal = true := by
  intro xs
  induction xs with
  | nil => intro p _ _ y hy; simp [ewmFrom] at hy
  | cons x xs ih =>
    intro p hp hxs y hy
    have hx : x.isVal = true := hxs x (by simp)
    have hy0 : (a * x + (PFloat.val 1 - a) * p).isVal = true :=
      PFloat.isVal_add (PFloat.isVal_mul ha hx)
        (PFloat.isVal_mul (PFloat.isVal_sub rfl ha) hp)
    rw [ewmFrom] at hy
    rcases List.mem_cons.mp hy with h | h
    · rw [h]; exact hy0
    · exact ih _ hy0 (fun z hz => hxs z (by simp [hz])) y h

theorem ewm_isVal (a : PFloat) (ha : a.isVal = true) (xs : List PFloat)
    (hxs : ∀ x ∈ xs, x.isVal = true) : ∀ y ∈ ewm a xs, y.isVal = true := by
  cases xs with
  | nil => intro y hy; simp [ewm] at hy
  | cons x xs =>
    intro y hy
    rw [ewm] at hy
    rcases List.mem_cons.mp hy with h | h
    · rw [h]; exact hxs x (by simp)
    · exact ewmFrom_isVal a ha xs x (hxs x (by simp))
        (fun z hz => hxs z (by simp [hz])) y h

/-! ### The price series and the KDJ stochastic -/

theorem kdjGo_length : ∀ (rs : List PFloat) (prev : Option (PFloat × PFloat)),
    (kdjGo prev rs).length = rs.length := by
  intro rs
  induction rs with
  | nil => intro prev; rfl
  | cons r rs ih => intro prev; simp [kdjGo, ih]

theorem kdjGo_getD_zero (prev : Option (PFloat × PFloat)) (r : PFloat)
    (rs : List PFloat) :
    (kdjGo prev (r :: rs)).getD 0 (PFloat.nan, PFloat.nan) = kdStep prev r := rfl

theorem kdjGo_getD_succ : ∀ (rs : List PFloat) (prev : Option (PFloat × PFloat))
    (i : ℕ), i + 1 < rs.length →
    (kdjGo prev rs).getD (i+1) (PFloat.nan, PFloat.nan) =
      kdStep (some ((kdjGo prev rs).getD i (PFloat.nan, PFloat.nan)))
        (rs.getD (i+1) PFloat.nan) := by
  intro rs
  induction rs with
  | nil => intro prev i h; simp at h
  | cons r rs ih =>
    intro prev i h
    cases i with
    | zero =>
      cases rs with
      | nil => simp at h
      | cons r2 rest => simp [kdjGo, List.getD_cons_succ]
    | succ i =>
      have h' : i + 1 < rs.length := by simpa using h
      simpa [kdjGo, List.getD_cons_succ] using ih (some (kdStep prev r)) i h'

/-! ### The indicator engine (`compute_macd_kdj`) -/

theorem closesP_length (rows : List Row) :
    (closesP rows).length = rows.length := by
  simp [closesP]

theorem rsvList_length (rows : List Row) :
    (rsvList rows).length = rows.length := by
  simp [rsvList]

theorem difList_length (rows : List Row) :
    (difList rows).length = rows.length := by
  simp [difList, short_ema, long_ema, ewm_length, closesP_length]

theorem deaList_length (rows : List Row) :
    (deaList rows).length = rows.length := by
  simp [deaList, ewm_length, difList_length]

theorem macdList_length (rows : List Row) :
    (macdList rows).length = rows.length := by
  simp [macdList, difList_length, deaList_length]

theorem kdList_length (rows : List Row) :
    (kdList rows).length = rows.length := by
  simp [kdList, kdjGo_length, rsvList_length]

theorem kList_length (rows : List Row) :
    (kList rows).length = rows.length := by
  simp [kList, kdList_length]

theorem dList_length (rows : List Row) :
    (dList rows).length = rows.length := by
  simp [dList, kdList_length]

theorem jList_length (rows : List Row) :
    (jList rows).length = rows.length := by
  simp [jList, kList_length, dList_length]

theorem rsvList_getD (rows : List Row) (i : ℕ) (h : i < rows.length) :
    (rsvList rows).getD i PFloat.nan = rsvAt rows i :=
  getD_range_map (rsvAt rows) rows.length i PFloat.nan h

theorem kList_getD (rows : List Row) (i : ℕ) (h : i < rows.length) :
    (kList rows).getD i PFloat.nan =
      ((kdList rows).getD i (PFloat.nan, PFloat.nan)).1 :=
  getD_map_of_lt Prod.fst (kdList rows) i (PFloat.nan, PFloat.nan) PFloat.nan
    (by simpa [kdList_length] using h)

theorem dList_getD (rows : List Row) (i : ℕ) (h : i < rows.length) :
    (dList rows).getD i PFloat.nan =
      ((kdList rows).getD i (PFloat.nan, PFloat.nan)).2 :=
  getD_map_of_lt Prod.snd (kdList rows) i (PFloat.nan, PFloat.nan) PFloat.nan
    (by simpa [kdList_length] using h)

theorem jList_getD (rows : List Row) (i : ℕ) (h : i < rows.length) :
    (jList rows).getD i PFloat.nan =
      jOf ((kList rows).getD i PFloat.nan) ((dList rows).getD i PFloat.nan) :=
  getD_zipWith_of_lt jOf (kList rows) (dList rows) i PFloat.nan PFloat.nan
    PFloat.nan (by simpa [kList_length] using h)
    (by simpa [dList_length] using h)

theorem kdjGo_getD_zero_of_ne (prev : Option (PFloat × PFloat))
    (rs : List PFloat) (h : 0 < rs.length) :
    (kdjGo prev rs).getD 0 (PFloat.nan, PFloat.nan) =
      kdStep prev (rs.getD 0 PFloat.nan) := by
  cases rs with
  | nil => simp at h
  | cons r rs => rfl

theorem kdList_getD_zero (rows : List Row) (h : 0 < rows.length) :
    (kdList rows).getD 0 (PFloat.nan, PFloat.nan) =
      kdStep none ((rsvList rows).getD 0 PFloat.nan) :=
  kdjGo_getD_zero_of_ne none (rsvList rows) (by simpa [rsvList_length] using h)

theorem kdList_getD_succ (rows : List Row) (i : ℕ) (h : i + 1 < rows.length) :
    (kdList rows).getD (i+1) (PFloat.nan, PFloat.nan) =
      kdStep (some ((kdList rows).getD i (PFloat.nan, PFloat.nan)))
        ((rsvList rows).getD (i+1) PFloat.nan) :=
  kdjGo_getD_succ (rsvList rows) none i (by simpa [rsvList_length] using h)

/-! ### Unfolding lemmas for the loop body -/

theorem kdStep_eq_of_not_nan (prev : Option (PFloat × PFloat)) (r : PFloat)
    (hr : r.isnan = false) :
    kdStep prev r =
      (PFloat.val (2/3) * (kdPrev prev).1 + PFloat.val (1/3) * r,
       PFloat.val (2/3) * (kdPrev prev).2 +
         PFloat.val (1/3) *
           (PFloat.val (2/3) * (kdPrev prev).1 + PFloat.val (1/3) * r)) := by
  rw [kdStep, if_neg (by simp [hr])]

theorem kdStep_eq_of_nan (prev : Option (PFloat × PFloat)) (r : PFloat)
    (hr : r.isnan = true) : kdStep prev r = (PFloat.nan, PFloat.nan) := by
  rw [kdStep, if_pos hr]

theorem kdPrev_of_nan {p : PFloat × PFloat} (h : p.1.isnan = true) :
    kdPrev (some p) = (PFloat.val 50, PFloat.val 50) := by
  obtain ⟨kp, dp⟩ := p
  simp only [kdPrev]
  rw [if_pos h]

theorem kdPrev_of_not_nan {p : PFloat × PFloat} (h : p.1.isnan = false) :
    kdPrev (some p) = p := by
  obtain ⟨kp, dp⟩ := p
  simp only [kdPrev]
  rw [if_neg (by simp_all)]

/-! ### Claim C2: the KDJ smoothing recurrence and its 50/50 seeding -/

/-- C2.  At every index whose RSV is defined but whose previous K is

undefined (including index 0), the smoothing is seeded with
`K_prev = D_prev = 50`, giving `K[i] = (2/3)·50 + (1/3)·RSV[i]` and
`D[i] = (2/3)·50 + (1/3)·K[i]`; at every other defined index the
recurrence continues from `K[i-1]`, `D[i-1]`. -/
theorem c2_kdj_recurrence (rows : List Row) (i : ℕ) (hi : i < rows.length)
    (hr : (((compute_macd_kdj rows).rsv.getD i PFloat.nan).isnan) = false) :
    ((i = 0 ∨ ((compute_macd_kdj rows).k.getD (i-1) PFloat.nan).isnan = true) →
      (compute_macd_kdj rows).k.getD i PFloat.nan =
        PFloat.val (2/3) * PFloat.val 50 +
          PFloat.val (1/3) * (compute_macd_kdj rows).rsv.getD i PFloat.nan ∧
      (compute_macd_kdj rows).d.getD i PFloat.nan =
        PFloat.val (2/3) * PFloat.val 50 +
          PFloat.val (1/3) * (compute_macd_kdj rows).k.getD i PFloat.nan) ∧
    ((0 < i ∧ ((compute_macd_kdj rows).k.getD (i-1) PFloat.nan).isnan = false) →
      (compute_macd_kdj rows).k.getD i PFloat.nan =
        PFloat.val (2/3) * (compute_macd_kdj rows).k.getD (i-1) PFloat.nan +
          PFloat.val (1/3) * (compute_macd_kdj rows).rsv.getD i PFloat.nan ∧
      (compute_macd_kdj rows).d.getD i PFloat.nan =
        PFloat.val (2/3) * (compute_macd_kdj rows).d.getD (i-1) PFloat.nan +
          PFloat.val (1/3) * (compute_macd_kdj rows).k.getD i PFloat.nan) := by
  simp only [compute_macd_kdj] at hr ⊢
  cases i with
  | zero =>
    have h0 := kdList_getD_zero rows hi
    refine ⟨fun _ => ?_, fun h => absurd h.1 (by omega)⟩
    rw [kList_getD rows 0 hi, dList_getD rows 0 hi, h0,
      kdStep_eq_of_not_nan none _ hr]
    exact ⟨rfl, rfl⟩
  | succ m =>
    have hm : m < rows.length := by omega
    have hs := kdList_getD_succ rows m hi
    have hsimp : m + 1 - 1 = m := rfl
    rw [hsimp]
    constructor
    · rintro (h | hknan)
      · exact absurd h (by omega)
      · rw [kList_getD rows m hm] at hknan
        rw [kList_getD rows (m+1) hi, dList_getD rows (m+1) hi, hs,
          kdStep_eq_of_not_nan _ _ hr, kdPrev_of_nan hknan]
        exact ⟨rfl, rfl⟩
    · rintro ⟨-, hkdef⟩
      rw [kList_getD rows m hm] at hkdef
      rw [kList_getD rows (m+1) hi, dList_getD rows (m+1) hi,
        kList_getD rows m hm, dList_getD rows m hm, hs,
        kdStep_eq_of_not_nan _ _ hr, kdPrev_of_not_nan hkdef]
      exact ⟨rfl, rfl⟩

/-! ### Claim C6: J is derived pointwise from K and D -/

/-- C6.  Wherever K and D are defined, `J = 3K − 2D` exactly; wherever K
is undefined, J is undefined. -/
theorem c6_j_derivation (rows : List Row) (i : ℕ) (hi : i < rows.length) :
    ((((compute_macd_kdj rows).k.getD i PFloat.nan).isnan = false ∧
      ((compute_macd_kdj rows).d.getD i PFloat.nan).isnan = false) →
      (compute_macd_kdj rows).j.getD i PFloat.nan =
        PFloat.val 3 * (compute_macd_kdj rows).k.getD i PFloat.nan -
          PFloat.val 2 * (compute_macd_kdj rows).d.getD i PFloat.nan) ∧
    (((compute_macd_kdj rows).k.getD i PFloat.nan).isnan = true →
      ((compute_macd_kdj rows).j.getD i PFloat.nan).isnan = true) := by
  simp only [compute_macd_kdj]
  have hj := jList_getD rows i hi
  constructor
  · rintro ⟨hk, -⟩
    rw [hj, jOf, if_neg (by rw [hk]; simp)]
  · intro hk
    rw [hj, jOf, if_pos hk]
    rfl

/-! ### Head values and element membership helpers -/

theorem ewm_getD_zero (a : PFloat) (xs : List PFloat) (h : 0 < xs.length) :
    (ewm a xs).getD 0 PFloat.nan = xs.getD 0 PFloat.nan := by
  cases xs with
  | nil => simp at h
  | cons x xs => rfl

theorem isVal_getD_of_mem {xs : List PFloat}
    (hall : ∀ y ∈ xs, y.isVal = true) (i : ℕ) (h : i < xs.length) :
    (xs.getD i PFloat.nan).isVal = true := by
  apply hall
  rw [List.getD_eq_getElem _ _ h]
  exact List.getElem_mem h

theorem closesP_all_isVal (rows : List Row) :
    ∀ x ∈ closesP rows, x.isVal = true := by
  intro x hx
  obtain ⟨r, -, rfl⟩ := List.mem_map.mp hx
  rfl

theorem short_ema_all_isVal (rows : List Row) :
    ∀ y ∈ short_ema rows, y.isVal = true :=
  ewm_isVal (PFloat.val (2/13)) rfl (closesP rows) (closesP_all_isVal rows)

theorem long_ema_all_isVal (rows : List Row) :
    ∀ y ∈ long_ema rows, y.isVal = true :=
  ewm_isVal (PFloat.val (2/27)) rfl (closesP rows) (closesP_all_isVal rows)

theorem difList_getD_isVal (rows : List Row) (i : ℕ) (h : i < rows.length) :
    ((difList rows).getD i PFloat.nan).isVal = true := by
  rw [difList, getD_zipWith_of_lt _ _ _ _ PFloat.nan PFloat.nan PFloat.nan
    (by simp [short_ema, ewm_length, closesP_length, h])
    (by simp [long_ema, ewm_length, closesP_length, h])]
  exact PFloat.isVal_sub
    (isVal_getD_of_mem (short_ema_all_isVal rows) i
      (by simp [short_ema, ewm_length, closesP_length, h]))
    (isVal_getD_of_mem (long_ema_all_isVal rows) i
      (by simp [long_ema, ewm_length, closesP_length, h]))

theorem difList_all_isVal (rows : List Row) :
    ∀ x ∈ difList rows, x.isVal = true := by
  intro x hx
  obtain ⟨i, hlen, rfl⟩ := List.mem_iff_getElem.mp hx
  have hlt : i < rows.length := by rwa [difList_length] at hlen
  rw [← List.getD_eq_getElem (difList rows) PFloat.nan hlen]
  exact difList_getD_isVal rows i hlt

theorem deaList_getD_isVal (rows : List Row) (i : ℕ) (h : i < rows.length) :
    ((deaList rows).getD i PFloat.nan).isVal = true :=
  isVal_getD_of_mem
    (ewm_isVal (PFloat.val (2/10)) rfl (difList rows) (difList_all_isVal rows)) i
    (by simpa [deaList, ewm_length, difList_length] using h)

theorem macdList_getD_isVal (rows : List Row) (i : ℕ) (h : i < rows.length) :
    ((macdList rows).getD i PFloat.nan).isVal = true := by
  rw [macdList, getD_zipWith_of_lt _ _ _ _ PFloat.nan PFloat.nan PFloat.nan
    (by simp [difList_length, h]) (by simp [deaList_length, h])]
  exact PFloat.isVal_mul rfl
    (PFloat.isVal_sub (difList_getD_isVal rows i h) (deaList_getD_isVal rows i h))

/-! ### Claim C3: the MACD seed property -/

/-- C3.  The EMAs are seeded with the first close (`EMA[0] = close[0]`,
recurrence `EMA[i] = a·x[i] + (1−a)·EMA[i−1]`, spans 12/26/9 giving

`a = 2/13, 2/27, 2/10`), hence `DIF[0] = 0`, `DEA[0] = DIF[0]` and
`MACD[0] = 0`. -/
theorem c3_macd_seed (rows : List Row) (h : 0 < rows.length) :
    (short_ema rows).getD 0 PFloat.nan = PFloat.val (rows.getD 0 default).close ∧
    (long_ema rows).getD 0 PFloat.nan = PFloat.val (rows.getD 0 default).close ∧
    (compute_macd_kdj rows).dif.getD 0 PFloat.nan = PFloat.val 0 ∧
    (compute_macd_kdj rows).dea.getD 0 PFloat.nan =
      (compute_macd_kdj rows).dif.getD 0 PFloat.nan ∧
    (compute_macd_kdj rows).macd.getD 0 PFloat.nan = PFloat.val 0 ∧
    (∀ i, i + 1 < rows.length →
      (short_ema rows).getD (i+1) PFloat.nan =
        PFloat.val (2/13) * (closesP rows).getD (i+1) PFloat.nan +
          (PFloat.val 1 - PFloat.val (2/13)) * (short_ema rows).getD i PFloat.nan ∧
      (long_ema rows).getD (i+1) PFloat.nan =
        PFloat.val (2/27) * (closesP rows).getD (i+1) PFloat.nan +
          (PFloat.val 1 - PFloat.val (2/27)) * (long_ema rows).getD i PFloat.nan ∧
      (compute_macd_kdj rows).dea.getD (i+1) PFloat.nan =
        PFloat.val (2/10) * (compute_macd_kdj rows).dif.getD (i+1) PFloat.nan +
          (PFloat.val 1 - PFloat.val (2/10)) *
            (compute_macd_kdj rows).dea.getD i PFloat.nan) := by
  simp only [compute_macd_kdj]
  have hclo : (closesP rows).getD 0 PFloat.nan =
      PFloat.val (rows.getD 0 default).close :=
    getD_map_of_lt _ rows 0 default PFloat.nan h
  have hcloLen : 0 < (closesP rows).length := by simpa [closesP_length] using h
  have hshort : (short_ema rows).getD 0 PFloat.nan =
      PFloat.val (rows.getD 0 default).close := by
    rw [short_ema, ewm_getD_zero _ _ hcloLen, hclo]
  have hlong : (long_ema rows).getD 0 PFloat.nan =
      PFloat.val (rows.getD 0 default).close := by
    rw [long_ema, ewm_getD_zero _ _ hcloLen, hclo]
  have hdif : (difList rows).getD 0 PFloat.nan = PFloat.val 0 := by
    rw [difList, getD_zipWith_of_lt _ _ _ _ PFloat.nan PFloat.nan PFloat.nan
      (by simp [short_ema, ewm_length, closesP_length, h])
      (by simp [long_ema, ewm_length, closesP_length, h]),
      hshort, hlong]
    simp
  have hdea : (deaList rows).getD 0 PFloat.nan = (difList rows).getD 0 PFloat.nan := by
    rw [deaList, ewm_getD_zero _ _ (by simpa [difList_length] using h)]
  refine ⟨hshort, hlong, hdif, hdea, ?_, ?_⟩
  · rw [macdList, getD_zipWith_of_lt _ _ _ _ PFloat.nan PFloat.nan PFloat.nan
      (by simp [difList_length, h]) (by simp [deaList_length, h]), hdif, hdea, hdif]
    simp
  · intro i hi1
    refine ⟨ewm_getD_succ _ _ i (by simpa [closesP_length] using hi1),
      ewm_getD_succ _ _ i (by simpa [closesP_length] using hi1), ?_⟩
    have := ewm_getD_succ (PFloat.val (2/10)) (difList rows) i
      (by simpa [difList_length] using hi1)
    rw [deaList]
    exact this

/-! ### Claim C4: MACD totality (lengths and no missing values) -/

/-- C4.  For any input series (all closes present) of length N ≥ 1, every
output series has length N, and the three MACD-family series are defined

(finite, non-NaN) at every index from 0 on. -/
theorem c4_macd_total (rows : List Row) (h : 1 ≤ rows.length) :
    ((compute_macd_kdj rows).dif.length = rows.length ∧
     (compute_macd_kdj rows).dea.length = rows.length ∧
     (compute_macd_kdj rows).macd.length = rows.length ∧
     (compute_macd_kdj rows).k.length = rows.length ∧
     (compute_macd_kdj rows).d.length = rows.length ∧
     (compute_macd_kdj rows).j.length = rows.length) ∧
    (∀ i, i < rows.length →
      ((compute_macd_kdj rows).dif.getD i PFloat.nan).isVal = true ∧
      ((compute_macd_kdj rows).dea.getD i PFloat.nan).isVal = true ∧
      ((compute_macd_kdj rows).macd.getD i PFloat.nan).isVal = true) := by
  simp only [compute_macd_kdj]
  exact ⟨⟨difList_length rows, deaList_length rows, macdList_length rows,
      kList_length rows, dList_length rows, jList_length rows⟩,
    fun i hi => ⟨difList_getD_isVal rows i hi, deaList_getD_isVal rows i hi,
      macdList_getD_isVal rows i hi⟩⟩

/-! ### Claim C5: series shorter than nine rows have no KDJ values -/

theorem rsvAt_eq_nan_of_short (rows : List Row) (i : ℕ) (h : i + 1 < 9) :
    rsvAt rows i = PFloat.nan := by
  rw [rsvAt, low_min, high_max, if_neg (by omega), if_neg (by omega)]
  simp [optP]

theorem kdjGo_all_nan : ∀ (rs : List PFloat) (prev : Option (PFloat × PFloat)),
    (∀ x ∈ rs, x.isnan = true) →
    ∀ p ∈ kdjGo prev rs, p = (PFloat.nan, PFloat.nan) := by
  intro rs
  induction rs with
  | nil => intro prev _ p hp; simp [kdjGo] at hp
  | cons r rs ih =>
    intro prev hall p hp
    have hr : r.isnan = true := hall r (by simp)
    rw [kdjGo] at hp
    rcases List.mem_cons.mp hp with h | h
    · rw [h, kdStep_eq_of_nan _ _ hr]
    · exact ih (some (kdStep prev r)) (fun x hx => hall x (by simp [hx])) p h

/-- C5.  For N < 9 every RSV/K/D/J entry is undefined for the whole
series, while DIF, DEA and MACD stay fully defined. -/
theorem c5_short_series (rows : List Row) (h : rows.length < 9) :
    ∀ i, i < rows.length →
      ((compute_macd_kdj rows).rsv.getD i PFloat.nan = PFloat.nan ∧
       (compute_macd_kdj rows).k.getD i PFloat.nan = PFloat.nan ∧
       (compute_macd_kdj rows).d.getD i PFloat.nan = PFloat.nan ∧
       (compute_macd_kdj rows).j.getD i PFloat.nan = PFloat.nan) ∧
      (((compute_macd_kdj rows).dif.getD i PFloat.nan).isVal = true ∧
       ((compute_macd_kdj rows).dea.getD i PFloat.nan).isVal = true ∧
       ((compute_macd_kdj rows).macd.getD i PFloat.nan).isVal = true) := by
  intro i hi
  simp only [compute_macd_kdj]
  have hrsv_all : ∀ x ∈ rsvList rows, x.isnan = true := by
    intro x hx
    obtain ⟨m, hlen, rfl⟩ := List.mem_iff_getElem.mp hx
    have hm : m < rows.length := by rwa [rsvList_length] at hlen
    rw [← List.getD_eq_getElem (rsvList rows) PFloat.nan hlen,
      rsvList_getD rows m hm, rsvAt_eq_nan_of_short rows m (by omega)]
    rfl
  have hkd : (kdList rows).getD i (PFloat.nan, PFloat.nan) =
      (PFloat.nan, PFloat.nan) := by
    have hlen : i < (kdList rows).length := by rwa [kdList_length]
    apply kdjGo_all_nan (rsvList rows) none hrsv_all
    rw [List.getD_eq_getElem _ _ hlen]
    exact List.getElem_mem hlen
  have hrsv : (rsvList rows).getD i PFloat.nan = PFloat.nan := by
    rw [rsvList_getD rows i hi, rsvAt_eq_nan_of_short rows i (by omega)]
  have hk : (kList rows).getD i PFloat.nan = PFloat.nan := by
    rw [kList_getD rows i hi, hkd]
  have hd : (dList rows).getD i PFloat.nan = PFloat.nan := by
    rw [dList_getD rows i hi, hkd]
  have hj : (jList rows).getD i PFloat.nan = PFloat.nan := by
    rw [jList_getD rows i hi, hk, hd, jOf]
    simp
  exact ⟨⟨hrsv, hk, hd, hj⟩, difList_getD_isVal rows i hi,
    deaList_getD_isVal rows i hi, macdList_getD_isVal rows i hi⟩

/-! ### Claim C1: flat stochastic windows -/

theorem kdList_getD_eq_nan (rows : List Row) (i : ℕ) (hi : i < rows.length)
    (hr : (rsvList rows).getD i PFloat.nan = PFloat.nan) :
    (kdList rows).getD i (PFloat.nan, PFloat.nan) = (PFloat.nan, PFloat.nan) := by
  cases i with
  | zero => rw [kdList_getD_zero rows hi, hr, kdStep_eq_of_nan _ PFloat.nan rfl]
  | succ m => rw [kdList_getD_succ rows m hi, hr, kdStep_eq_of_nan _ PFloat.nan rfl]

/-- C1 (amended).  At any index `i ≥ 8` whose trailing 9-row window is
flat (`high_max = low_min = c`) and whose close equals that common value
`c` (numerator of the RSV quotient zero, the `0/0` case), RSV, K and D
are all NaN, i.e. missing, at that index — and no exception arises (the
engine is a total function). -/
theorem c1_flat_window (rows : List Row) (i : ℕ) (c : ℚ) (h8 : 8 ≤ i)
    (hi : i < rows.length) (hhm : high_max rows i = some c)
    (hlm : low_min rows i = some c) (hc : (rows.getD i default).close = c) :
    (compute_macd_kdj rows).rsv.getD i PFloat.nan = PFloat.nan ∧
    (compute_macd_kdj rows).k.getD i PFloat.nan = PFloat.nan ∧
    (compute_macd_kdj rows).d.getD i PFloat.nan = PFloat.nan := by
  simp only [compute_macd_kdj]
  have hrsv : (rsvList rows).getD i PFloat.nan = PFloat.nan := by
    rw [rsvList_getD rows i hi, rsvAt, hhm, hlm, hc]
    simp [optP, PFloat.div_def, PFloat.div]
  refine ⟨hrsv, ?_, ?_⟩
  · rw [kList_getD rows i hi, kdList_getD_eq_nan rows i hi hrsv]
  · rw [dList_getD rows i hi, kdList_getD_eq_nan rows i hi hrsv]

/-- Witness for C1: nine identical rows satisfy all the hypotheses at
index 8, and the engine leaves RSV/K/D missing there. -/
theorem c1_flat_window_witness :
    (8 ≤ 8 ∧ 8 < flatRows.length ∧ high_max flatRows 8 = some 100 ∧
      low_min flatRows 8 = some 100 ∧ (flatRows.getD 8 default).close = 100) ∧
    ((compute_macd_kdj flatRows).rsv.getD 8 PFloat.nan = PFloat.nan ∧
     (compute_macd_kdj flatRows).k.getD 8 PFloat.nan = PFloat.nan ∧
     (compute_macd_kdj flatRows).d.getD 8 PFloat.nan = PFloat.nan) :=
  ⟨⟨by decide, by decide, by decide, by decide, by decide⟩,
   c1_flat_window flatRows 8 100 (by decide) (by decide) (by decide)
     (by decide) (by decide)⟩

theorem rsv_flatRows9_eq_pinf :
    (rsvList flatRows9).getD 8 PFloat.nan = PFloat.pinf := by
  have hhm : high_max flatRows9 8 = some 100 := by decide
  have hlm : low_min flatRows9 8 = some 100 := by decide
  have hc : (flatRows9.getD 8 default).close = 101 := by decide
  rw [rsvList_getD flatRows9 8 (by decide), rsvAt, hhm, hlm, hc]
  show (PFloat.val 101 - PFloat.val 100) / (PFloat.val 100 - PFloat.val 100) *
      PFloat.val 100 = PFloat.pinf
  rw [PFloat.val_sub_val, PFloat.val_sub_val, PFloat.div_def, PFloat.div]
  norm_num [PFloat.mul_def, PFloat.mul]

theorem kd_flatRows9_at8 :
    (kdList flatRows9).getD 8 (PFloat.nan, PFloat.nan) =
      (PFloat.pinf, PFloat.pinf) := by
  have h7 : (kdList flatRows9).getD 7 (PFloat.nan, PFloat.nan) =
      (PFloat.nan, PFloat.nan) :=
    kdList_getD_eq_nan flatRows9 7 (by decide)
      (by rw [rsvList_getD flatRows9 7 (by decide),
            rsvAt_eq_nan_of_short flatRows9 7 (by omega)])
  rw [kdList_getD_succ flatRows9 7 (by decide), h7, rsv_flatRows9_eq_pinf,
    kdStep_eq_of_not_nan _ PFloat.pinf rfl,
    kdPrev_of_nan (p := (PFloat.nan, PFloat.nan)) rfl]
  have h13 : PFloat.val (3:ℚ)⁻¹ * PFloat.pinf = PFloat.pinf :=
    PFloat.val_mul_pinf_of_pos (by norm_num)
  simp [h13]

/-- Counterexample to C1 as stated: in `flatRows9` the window at index 8
is flat (`high_max = low_min = 100`) yet the close is 101, so numpy
computes `1/0 = +inf`: RSV is *not* a missing value, and K and D are
defined (infinite) rather than undefined. -/
theorem c1_counterexample :
    high_max flatRows9 8 = some 100 ∧ low_min flatRows9 8 = some 100 ∧
    (compute_macd_kdj flatRows9).rsv.getD 8 PFloat.nan = PFloat.pinf ∧
    ((compute_macd_kdj flatRows9).k.getD 8 PFloat.nan).isnan = false ∧
    ((compute_macd_kdj flatRows9).d.getD 8 PFloat.nan).isnan = false := by
  refine ⟨by decide, by decide, rsv_flatRows9_eq_pinf, ?_, ?_⟩
  · show ((kList flatRows9).getD 8 PFloat.nan).isnan = false
    rw [kList_getD flatRows9 8 (by decide), kd_flatRows9_at8]
    rfl
  · show ((dList flatRows9).getD 8 PFloat.nan).isnan = false
    rw [dList_getD flatRows9 8 (by decide), kd_flatRows9_at8]
    rfl

/-! ### Claim C9: definedness coupling of RSV, K, D and J -/

theorem PFloat.isnan_eq_false_of_isVal {x : PFloat} (h : x.isVal = true) :
    x.isnan = false := by
  cases x <;> simp_all [PFloat.isVal, PFloat.isnan]

theorem kdPrev_classes (prev : Option (PFloat × PFloat))
    (hp : ∀ p, prev = some p → PairOk p) :
    ((kdPrev prev).1.isVal = true ∧ (kdPrev prev).2.isVal = true) ∨
    ((kdPrev prev).1 = PFloat.pinf ∧ (kdPrev prev).2 = PFloat.pinf) ∨
    ((kdPrev prev).1 = PFloat.ninf ∧ (kdPrev prev).2 = PFloat.ninf) := by
  cases prev with
  | none => exact Or.inl ⟨rfl, rfl⟩
  | some p =>
    cases hnan : p.1.isnan with
    | true => rw [kdPrev_of_nan hnan]; exact Or.inl ⟨rfl, rfl⟩
    | false =>
      rw [kdPrev_of_not_nan hnan]
      rcases hp p rfl with ⟨h1, -⟩ | h | h | h
      · rw [hnan] at h1; cases h1
      · exact Or.inl h
      · exact Or.inr (Or.inl h)
      · exact Or.inr (Or.inr h)

theorem kdStep_pairOk (prev : Option (PFloat × PFloat)) (r : PFloat)
    (hp : ∀ p, prev = some p → PairOk p) : PairOk (kdStep prev r) := by
  cases hr : r.isnan with
  | true => rw [kdStep_eq_of_nan _ _ hr]; exact Or.inl ⟨rfl, rfl⟩
  | false =>
    rw [kdStep_eq_of_not_nan _ _ hr]
    have m13p : PFloat.val (3:ℚ)⁻¹ * PFloat.pinf = PFloat.pinf :=
      PFloat.val_mul_pinf_of_pos (by norm_num)
    have m13n : PFloat.val (3:ℚ)⁻¹ * PFloat.ninf = PFloat.ninf :=
      PFloat.val_mul_ninf_of_pos (by norm_num)
    have m23p : PFloat.val (2/3:ℚ) * PFloat.pinf = PFloat.pinf :=
      PFloat.val_mul_pinf_of_pos (by norm_num)
    have m23n : PFloat.val (2/3:ℚ) * PFloat.ninf = PFloat.ninf :=
      PFloat.val_mul_ninf_of_pos (by norm_num)
    rcases kdPrev_classes prev hp with ⟨h1, h2⟩ | ⟨h1, h2⟩ | ⟨h1, h2⟩
    · obtain ⟨a, ha⟩ := PFloat.isVal_iff.mp h1
      obtain ⟨b, hb⟩ := PFloat.isVal_iff.mp h2
      rw [ha, hb]
      cases r with
      | nan => simp at hr
      | pinf => simp [PairOk, m13p, m13n, m23p, m23n]
      | ninf => simp [PairOk, m13p, m13n, m23p, m23n]
      | val q => simp [PairOk]
    · rw [h1, h2]
      cases r with
      | nan => simp at hr
      | pinf => simp [PairOk, m13p, m13n, m23p, m23n]
      | ninf => simp [PairOk, m13p, m13n, m23p, m23n]
      | val q => simp [PairOk, m13p, m13n, m23p, m23n]
    · rw [h1, h2]
      cases r with
      | nan => simp at hr
      | pinf => simp [PairOk, m13p, m13n, m23p, m23n]
      | ninf => simp [PairOk, m13p, m13n, m23p, m23n]
      | val q => simp [PairOk, m13p, m13n, m23p, m23n]

theorem kdjGo_pairOk : ∀ (rs : List PFloat) (prev : Option (PFloat × PFloat)),
    (∀ p, prev = some p → PairOk p) → ∀ i, i < rs.length →
    PairOk ((kdjGo prev rs).getD i (PFloat.nan, PFloat.nan)) := by
  intro rs
  induction rs with
  | nil => intro prev _ i hi; simp at hi
  | cons r rs ih =>
    intro prev hp i hi
    cases i with
    | zero => rw [kdjGo_getD_zero]; exact kdStep_pairOk prev r hp
    | succ m =>
      have hc : kdjGo prev (r :: rs) =
          kdStep prev r :: kdjGo (some (kdStep prev r)) rs := rfl
      rw [hc, List.getD_cons_succ]
      exact ih (some (kdStep prev r))
        (fun p hp2 => by rw [← Option.some.inj hp2]; exact kdStep_pairOk prev r hp)
        m (by simpa using hi)

theorem kdPrev_isVal_of_fin (prev : Option (PFloat × PFloat))
    (hp : ∀ p, prev = some p → PairFin p) :
    (kdPrev prev).1.isVal = true ∧ (kdPrev prev).2.isVal = true := by
  cases prev with
  | none => exact ⟨rfl, rfl⟩
  | some p =>
    cases hnan : p.1.isnan with
    | true => rw [kdPrev_of_nan hnan]; exact ⟨rfl, rfl⟩
    | false =>
      rw [kdPrev_of_not_nan hnan]
      rcases hp p rfl with ⟨h1, -⟩ | h
      · rw [hnan] at h1; cases h1
      · exact h

theorem kdStep_pairFin (prev : Option (PFloat × PFloat)) (r : PFloat)
    (hr : r.isnan = true ∨ r.isVal = true)
    (hp : ∀ p, prev = some p → PairFin p) :
    PairFin (kdStep prev r) ∧ (kdStep prev r).1.isnan = r.isnan := by
  rcases hr with hr | hr
  · rw [kdStep_eq_of_nan _ _ hr, hr]
    exact ⟨Or.inl ⟨rfl, rfl⟩, rfl⟩
  · obtain ⟨q, rfl⟩ := PFloat.isVal_iff.mp hr
    rw [kdStep_eq_of_not_nan prev (PFloat.val q) rfl]
    obtain ⟨h1, h2⟩ := kdPrev_isVal_of_fin prev hp
    obtain ⟨a, ha⟩ := PFloat.isVal_iff.mp h1
    obtain ⟨b, hb⟩ := PFloat.isVal_iff.mp h2
    rw [ha, hb]
    exact ⟨Or.inr (by constructor <;> simp), by simp⟩

theorem kdjGo_pairFin : ∀ (rs : List PFloat) (prev : Option (PFloat × PFloat)),
    (∀ x ∈ rs, x.isnan = true ∨ x.isVal = true) →
    (∀ p, prev = some p → PairFin p) → ∀ i, i < rs.length →
    PairFin ((kdjGo prev rs).getD i (PFloat.nan, PFloat.nan)) ∧
    ((kdjGo prev rs).getD i (PFloat.nan, PFloat.nan)).1.isnan =
      (rs.getD i PFloat.nan).isnan := by
  intro rs
  induction rs with
  | nil => intro prev _ _ i hi; simp at hi
  | cons r rs ih =>
    intro prev hall hp i hi
    cases i with
    | zero =>
      rw [kdjGo_getD_zero, List.getD_cons_zero]
      exact kdStep_pairFin prev r (hall r (by simp)) hp
    | succ m =>
      have hc : kdjGo prev (r :: rs) =
          kdStep prev r :: kdjGo (some (kdStep prev r)) rs := rfl
      rw [hc, List.getD_cons_succ, List.getD_cons_succ]
      exact ih (some (kdStep prev r))
        (fun x hx => hall x (by simp [hx]))
        (fun p hp2 => by
          rw [← Option.some.inj hp2]
          exact (kdStep_pairFin prev r (hall r (by simp)) hp).1)
        m (by simpa using hi)

/-- C9 (amended).  Unconditionally, K and D are defined at exactly the
same indices.  Whenever every defined RSV value is finite (in particular
whenever no flat window with an escaping close occurs), the full coupling
holds: K is defined iff RSV is defined, and J is defined iff K is
defined.  (The counterexample shows the RSV↔K and K↔J halves fail once an
RSV is ±infinite.) -/
theorem c9_definedness_coupling (rows : List Row) :
    (∀ i, i < rows.length →
      ((compute_macd_kdj rows).k.getD i PFloat.nan).isnan =
        ((compute_macd_kdj rows).d.getD i PFloat.nan).isnan) ∧
    ((∀ i, i < rows.length →
        ((compute_macd_kdj rows).rsv.getD i PFloat.nan).isnan = true ∨
        ((compute_macd_kdj rows).rsv.getD i PFloat.nan).isVal = true) →
      ∀ i, i < rows.length →
        ((compute_macd_kdj rows).k.getD i PFloat.nan).isnan =
          ((compute_macd_kdj rows).rsv.getD i PFloat.nan).isnan ∧
        ((compute_macd_kdj rows).j.getD i PFloat.nan).isnan =
          ((compute_macd_kdj rows).k.getD i PFloat.nan).isnan) := by
  simp only [compute_macd_kdj]
  constructor
  · intro i hi
    rw [kList_getD rows i hi, dList_getD rows i hi]
    have hOk : PairOk ((kdList rows).getD i (PFloat.nan, PFloat.nan)) :=
      kdjGo_pairOk (rsvList rows) none (fun p hp => by cases hp) i
        (by rwa [rsvList_length])
    rcases hOk with ⟨h1, h2⟩ | ⟨h1, h2⟩ | ⟨h1, h2⟩ | ⟨h1, h2⟩
    · rw [h1, h2]
    · rw [PFloat.isnan_eq_false_of_isVal h1, PFloat.isnan_eq_false_of_isVal h2]
    · rw [h1, h2]
    · rw [h1, h2]
  · intro hfin i hi
    have hall : ∀ x ∈ rsvList rows, x.isnan = true ∨ x.isVal = true := by
      intro x hx
      obtain ⟨m, hlen, rfl⟩ := List.mem_iff_getElem.mp hx
      have hm : m < rows.length := by rwa [rsvList_length] at hlen
      rw [← List.getD_eq_getElem (rsvList rows) PFloat.nan hlen]
      exact hfin m hm
    have hFin : PairFin ((kdList rows).getD i (PFloat.nan, PFloat.nan)) ∧
        ((kdList rows).getD i (PFloat.nan, PFloat.nan)).1.isnan =
          ((rsvList rows).getD i PFloat.nan).isnan :=
      kdjGo_pairFin (rsvList rows) none hall (fun p hp => by cases hp)
        i (by rwa [rsvList_length])
    have hk : (kList rows).getD i PFloat.nan =
        ((kdList rows).getD i (PFloat.nan, PFloat.nan)).1 :=
      kList_getD rows i hi
    constructor
    · rw [hk]
      exact hFin.2
    · rw [jList_getD rows i hi, hk]
      cases hknan : ((kdList rows).getD i
          (PFloat.nan, PFloat.nan)).1.isnan with
      | true =>
        rw [jOf, if_pos hknan]
        rfl
      | false =>
        rcases hFin.1 with ⟨h1, -⟩ | ⟨h1, h2⟩
        · rw [hknan] at h1; cases h1
        · obtain ⟨a, ha⟩ := PFloat.isVal_iff.mp h1
          obtain ⟨b, hb⟩ := PFloat.isVal_iff.mp h2
          rw [dList_getD rows i hi, ha, hb]
          simp [jOf]

/-- Counterexample to C9 as stated: in `flatRows9`, at index 8 the RSV is
+inf, K is defined (+inf), yet `J = 3·(+inf) − 2·(+inf) = inf − inf` is
NaN: "J defined iff K defined" fails (as does "K defined iff RSV defined"
one row later in longer variants). -/
theorem c9_counterexample :
    ((compute_macd_kdj flatRows9).k.getD 8 PFloat.nan).isnan = false ∧
    ((compute_macd_kdj flatRows9).j.getD 8 PFloat.nan).isnan = true := by
  constructor
  · show ((kList flatRows9).getD 8 PFloat.nan).isnan = false
    rw [kList_getD flatRows9 8 (by decide), kd_flatRows9_at8]
    rfl
  · show ((jList flatRows9).getD 8 PFloat.nan).isnan = true
    rw [jList_getD flatRows9 8 (by decide), kList_getD flatRows9 8 (by decide),
      dList_getD flatRows9 8 (by decide), kd_flatRows9_at8]
    show (jOf PFloat.pinf PFloat.pinf).isnan = true
    have h3 : PFloat.val (3:ℚ) * PFloat.pinf = PFloat.pinf :=
      PFloat.val_mul_pinf_of_pos (by norm_num)
    have h2 : PFloat.val (2:ℚ) * PFloat.pinf = PFloat.pinf :=
      PFloat.val_mul_pinf_of_pos (by norm_num)
    rw [jOf, if_neg (by simp), h3, h2]
    rfl

theorem rsvAt_isVal_aux (rows : List Row) (i : ℕ) (a b : ℚ)
    (hhm : high_max rows i = some a) (hlm : low_min rows i = some b)
    (hne : ¬ (a - b = 0)) : (rsvAt rows i).isVal = true := by
  rw [rsvAt, hhm, hlm]
  show ((PFloat.val (rows.getD i default).close - PFloat.val b) /
      (PFloat.val a - PFloat.val b) * PFloat.val 100).isVal = true
  rw [PFloat.val_sub_val, PFloat.val_sub_val, PFloat.div_def, PFloat.div,
    if_neg hne]
  simp

/-- Witness for C9: on the ten-row scenario every defined RSV is finite,
so the full coupling holds, here checked at index 8. -/
theorem c9_witness :
    ((compute_macd_kdj rows10).k.getD 8 PFloat.nan).isnan =
      ((compute_macd_kdj rows10).rsv.getD 8 PFloat.nan).isnan ∧
    ((compute_macd_kdj rows10).j.getD 8 PFloat.nan).isnan =
      ((compute_macd_kdj rows10).k.getD 8 PFloat.nan).isnan :=
  (c9_definedness_coupling rows10).2
    (by
      intro i hi
      show ((rsvList rows10).getD i PFloat.nan).isnan = true ∨
        ((rsvList rows10).getD i PFloat.nan).isVal = true
      have h10 : rows10.length = 10 := rfl
      rw [h10] at hi
      interval_cases i
      · exact Or.inl (by rw [rsvList_getD rows10 0 (by decide),
          rsvAt_eq_nan_of_short rows10 0 (by omega)]; rfl)
      · exact Or.inl (by rw [rsvList_getD rows10 1 (by decide),
          rsvAt_eq_nan_of_short rows10 1 (by omega)]; rfl)
      · exact Or.inl (by rw [rsvList_getD rows10 2 (by decide),
          rsvAt_eq_nan_of_short rows10 2 (by omega)]; rfl)
      · exact Or.inl (by rw [rsvList_getD rows10 3 (by decide),
          rsvAt_eq_nan_of_short rows10 3 (by omega)]; rfl)
      · exact Or.inl (by rw [rsvList_getD rows10 4 (by decide),
          rsvAt_eq_nan_of_short rows10 4 (by omega)]; rfl)
      · exact Or.inl (by rw [rsvList_getD rows10 5 (by decide),
          rsvAt_eq_nan_of_short rows10 5 (by omega)]; rfl)
      · exact Or.inl (by rw [rsvList_getD rows10 6 (by decide),
          rsvAt_eq_nan_of_short rows10 6 (by omega)]; rfl)
      · exact Or.inl (by rw [rsvList_getD rows10 7 (by decide),
          rsvAt_eq_nan_of_short rows10 7 (by omega)]; rfl)
      · refine Or.inr ?_
        rw [rsvList_getD rows10 8 (by decide)]
        exact rsvAt_isVal_aux rows10 8 113 99 (by decide) (by decide)
          (by norm_num)
      · refine Or.inr ?_
        rw [rsvList_getD rows10 9 (by decide)]
        exact rsvAt_isVal_aux rows10 9 116 100 (by decide) (by decide)
          (by norm_num))
    8 (by decide)

/-! ### Witnesses for the functional claims on concrete ten-row input -/

theorem kd_rows10_at8 : ∃ a b : ℚ,
    (kdList rows10).getD 8 (PFloat.nan, PFloat.nan) =
      (PFloat.val a, PFloat.val b) := by
  have h7 : (kdList rows10).getD 7 (PFloat.nan, PFloat.nan) =
      (PFloat.nan, PFloat.nan) :=
    kdList_getD_eq_nan rows10 7 (by decide)
      (by rw [rsvList_getD rows10 7 (by decide),
        rsvAt_eq_nan_of_short rows10 7 (by omega)])
  obtain ⟨q, hq⟩ := PFloat.isVal_iff.mp
    (rsvAt_isVal_aux rows10 8 113 99 (by decide) (by decide) (by norm_num))
  rw [kdList_getD_succ rows10 7 (by decide), h7,
    rsvList_getD rows10 8 (by decide), hq,
    kdStep_eq_of_not_nan _ (PFloat.val q) rfl,
    kdPrev_of_nan (p := (PFloat.nan, PFloat.nan)) rfl]
  exact ⟨2/3 * 50 + 1/3 * q, 2/3 * 50 + 1/3 * (2/3 * 50 + 1/3 * q), by simp⟩

/-- Witness for C2: on the ten-row scenario the first defined RSV is at
index 8, where the previous K is undefined, so the 50/50 seed fires. -/
theorem c2_witness :
    (compute_macd_kdj rows10).k.getD 8 PFloat.nan =
      PFloat.val (2/3) * PFloat.val 50 +
        PFloat.val (1/3) * (compute_macd_kdj rows10).rsv.getD 8 PFloat.nan ∧
    (compute_macd_kdj rows10).d.getD 8 PFloat.nan =
      PFloat.val (2/3) * PFloat.val 50 +
        PFloat.val (1/3) * (compute_macd_kdj rows10).k.getD 8 PFloat.nan :=
  (c2_kdj_recurrence rows10 8 (by decide)
    (by
      show ((rsvList rows10).getD 8 PFloat.nan).isnan = false
      rw [rsvList_getD rows10 8 (by decide)]
      exact PFloat.isnan_eq_false_of_isVal
        (rsvAt_isVal_aux rows10 8 113 99 (by decide) (by decide)
          (by norm_num)))).1
    (Or.inr (by
      show ((kList rows10).getD 7 PFloat.nan).isnan = true
      rw [kList_getD rows10 7 (by decide),
        kdList_getD_eq_nan rows10 7 (by decide)
          (by rw [rsvList_getD rows10 7 (by decide),
            rsvAt_eq_nan_of_short rows10 7 (by omega)])]
      rfl))

/-- Witness for C3 at the ten-row scenario. -/
theorem c3_witness :
    (compute_macd_kdj rows10).dif.getD 0 PFloat.nan = PFloat.val 0 ∧
    (compute_macd_kdj rows10).dea.getD 0 PFloat.nan =
      (compute_macd_kdj rows10).dif.getD 0 PFloat.nan ∧
    (compute_macd_kdj rows10).macd.getD 0 PFloat.nan = PFloat.val 0 :=
  ⟨(c3_macd_seed rows10 (by decide)).2.2.1,
   (c3_macd_seed rows10 (by decide)).2.2.2.1,
   (c3_macd_seed rows10 (by decide)).2.2.2.2.1⟩

/-- Witness for C4 at the ten-row scenario. -/
theorem c4_witness :
    (compute_macd_kdj rows10).dif.length = rows10.length ∧
    (compute_macd_kdj rows10).j.length = rows10.length ∧
    ((compute_macd_kdj rows10).dif.getD 0 PFloat.nan).isVal = true ∧
    ((compute_macd_kdj rows10).macd.getD 9 PFloat.nan).isVal = true :=
  ⟨(c4_macd_total rows10 (by decide)).1.1,
   (c4_macd_total rows10 (by decide)).1.2.2.2.2.2,
   ((c4_macd_total rows10 (by decide)).2 0 (by decide)).1,
   ((c4_macd_total rows10 (by decide)).2 9 (by decide)).2.2⟩

/-- Witness for C5 at the three-row prefix. -/
theorem c5_witness :
    ((compute_macd_kdj rows3).rsv.getD 2 PFloat.nan = PFloat.nan ∧
     (compute_macd_kdj rows3).k.getD 2 PFloat.nan = PFloat.nan ∧
     (compute_macd_kdj rows3).j.getD 2 PFloat.nan = PFloat.nan) ∧
    ((compute_macd_kdj rows3).dif.getD 2 PFloat.nan).isVal = true :=
  ⟨⟨(c5_short_series rows3 (by decide) 2 (by decide)).1.1,
    (c5_short_series rows3 (by decide) 2 (by decide)).1.2.1,
    (c5_short_series rows3 (by decide) 2 (by decide)).1.2.2.2⟩,
   (c5_short_series rows3 (by decide) 2 (by decide)).2.1⟩

/-- Witness for C6 at the ten-row scenario, index 8 (both K and D
defined). -/
theorem c6_witness :
    (compute_macd_kdj rows10).j.getD 8 PFloat.nan =
      PFloat.val 3 * (compute_macd_kdj rows10).k.getD 8 PFloat.nan -
        PFloat.val 2 * (compute_macd_kdj rows10).d.getD 8 PFloat.nan := by
  obtain ⟨a, b, hab⟩ := kd_rows10_at8
  exact (c6_j_derivation rows10 8 (by decide)).1
    ⟨by
      show ((kList rows10).getD 8 PFloat.nan).isnan = false
      rw [kList_getD rows10 8 (by decide), hab]
      rfl,
     by
      show ((dList rows10).getD 8 PFloat.nan).isnan = false
      rw [dList_getD rows10 8 (by decide), hab]
      rfl⟩

/-! ### Claim C7: signal conditions on a defined last row -/

/-- C7.  With all four last-row values defined: "bullish momentum"
(`MACD金叉/上涨动能`) fires iff `DIF > DEA ∧ MACD > 0`, "bearish momentum"
(`MACD死叉/下跌动能`) iff `DIF < DEA ∧ MACD < 0`, "oversold" (`KDJ超卖区`)
iff `J < 20`, "overbought" (`KDJ超买区`) iff `J > 80`; when none fires the
reported text is `暂无明显信号` ("no clear signal"). -/
theorem c7_signal_conditions (a b c d : ℚ) :
    ("MACD金叉/上涨动能" ∈
        signalsOf (PFloat.val a) (PFloat.val b) (PFloat.val c) (PFloat.val d) ↔
      (b < a ∧ 0 < c)) ∧
    ("MACD死叉/下跌动能" ∈
        signalsOf (PFloat.val a) (PFloat.val b) (PFloat.val c) (PFloat.val d) ↔
      (a < b ∧ c < 0)) ∧
    ("KDJ超卖区" ∈
        signalsOf (PFloat.val a) (PFloat.val b) (PFloat.val c) (PFloat.val d) ↔
      d < 20) ∧
    ("KDJ超买区" ∈
        signalsOf (PFloat.val a) (PFloat.val b) (PFloat.val c) (PFloat.val d) ↔
      80 < d) ∧
    ((¬(b < a ∧ 0 < c) ∧ ¬(a < b ∧ c < 0) ∧ ¬(d < 20) ∧ ¬(80 < d)) →
      signalText (PFloat.val a) (PFloat.val b) (PFloat.val c) (PFloat.val d) =
        "暂无明显信号") := by
  by_cases h1 : b < a <;> by_cases h2 : 0 < c <;> by_cases h3 : a < b <;>
    by_cases h4 : c < 0 <;> by_cases h5 : d < 20 <;> by_cases h6 : 80 < d <;>
    first
      | (exfalso; linarith)
      | simp [signalsOf, signalText, h1, h2, h3, h4, h5, h6]

/-- Witness for C7 at the no-signal row `DIF = DEA = 0, MACD = 0, J = 50`. -/
theorem c7_witness :
    signalText (PFloat.val 0) (PFloat.val 0) (PFloat.val 0) (PFloat.val 50) =
      "暂无明显信号" :=
  (c7_signal_conditions 0 0 0 50).2.2.2.2
    ⟨by norm_num, by norm_num, by norm_num, by norm_num⟩

/-! ### Claim C10: undefined indicator values fire no signal -/

/-- C10.  A NaN J yields neither "oversold" nor "overbought"; a NaN in
DIF, DEA or MACD suppresses both momentum signals; with everything NaN
the reported text is the no-signal message. -/
theorem c10_nan_signals (difv deav macdv jv : PFloat) :
    (jv.isnan = true →
      "KDJ超卖区" ∉ signalsOf difv deav macdv jv ∧
      "KDJ超买区" ∉ signalsOf difv deav macdv jv) ∧
    ((difv.isnan = true ∨ deav.isnan = true ∨ macdv.isnan = true) →
      "MACD金叉/上涨动能" ∉ signalsOf difv deav macdv jv ∧
      "MACD死叉/下跌动能" ∉ signalsOf difv deav macdv jv) ∧
    ((difv.isnan = true ∧ deav.isnan = true ∧ macdv.isnan = true ∧
        jv.isnan = true) →
      signalText difv deav macdv jv = "暂无明显信号") := by
  refine ⟨?_, ?_, ?_⟩
  · intro hj
    obtain rfl := PFloat.isnan_iff.mp hj
    constructor <;>
      · simp only [signalsOf, PFloat.lt_nan, PFloat.nan_lt, Bool.and_eq_true,
          List.mem_append, if_neg, Bool.false_eq_true, not_false_eq_true,
          List.append_nil]
        split_ifs <;> simp_all
  · intro h
    have hz : (PFloat.lt deav difv && PFloat.lt (PFloat.val 0) macdv) = false ∧
        (PFloat.lt difv deav && PFloat.lt macdv (PFloat.val 0)) = false := by
      rcases h with h | h | h <;> obtain rfl := PFloat.isnan_iff.mp h <;> simp
    constructor <;>
      · simp only [signalsOf, hz.1, hz.2, List.mem_append]
        split_ifs <;> simp_all
  · rintro ⟨h1, h2, h3, h4⟩
    obtain rfl := PFloat.isnan_iff.mp h1
    obtain rfl := PFloat.isnan_iff.mp h2
    obtain rfl := PFloat.isnan_iff.mp h3
    obtain rfl := PFloat.isnan_iff.mp h4
    simp [signalText, signalsOf]

/-- Witness for C10: the all-NaN last row reports no clear signal. -/
theorem c10_witness :
    "KDJ超卖区" ∉ signalsOf PFloat.nan PFloat.nan PFloat.nan PFloat.nan ∧
    signalText PFloat.nan PFloat.nan PFloat.nan PFloat.nan = "暂无明显信号" :=
  ⟨((c10_nan_signals PFloat.nan PFloat.nan PFloat.nan PFloat.nan).1 rfl).1,
   (c10_nan_signals PFloat.nan PFloat.nan PFloat.nan PFloat.nan).2.2
     ⟨rfl, rfl, rfl, rfl⟩⟩

/-! ### Claim C8: determinism of the synthetic-data fallback -/

/-- C8 (amended).  The synthetic high/low/close columns depend only on the
ticker hash — they are identical across runs regardless of the incoming
global RNG state (the fallback reseeds it) and regardless of the
invocation instant; two fallback runs sharing the same
`dt.datetime.today()` instant produce fully identical price DataFrames;
the synthetic financial metrics depend only on the ticker hash.  (The
counterexample shows the date column embeds the invocation timestamp —
time of day included — so "same ticker ⇒ same synthetic data" needs
"same instant", not merely "same ticker" or even "same day".) -/
theorem c8_determinism (hashv : ℕ) (d1 d2 : ℤ) (days : ℕ)
    (s1 s2 : RngState) :
    ((fetch_price_data hashv d1 days s1).1.map PriceRow.close =
      (fetch_price_data hashv d2 days s2).1.map PriceRow.close) ∧
    ((fetch_price_data hashv d1 days s1).1.map PriceRow.high =
      (fetch_price_data hashv d2 days s2).1.map PriceRow.high) ∧
    ((fetch_price_data hashv d1 days s1).1.map PriceRow.low =
      (fetch_price_data hashv d2 days s2).1.map PriceRow.low) ∧
    (d1 = d2 → (fetch_price_data hashv d1 days s1).1 =
      (fetch_price_data hashv d2 days s2).1) ∧
    fetch_financial_metrics hashv = fetch_financial_metrics hashv := by
  refine ⟨?_, ?_, ?_, fun h => by subst h; rfl, rfl⟩ <;>
    · simp only [fetch_price_data, List.map_map]
      rfl

/-- Witness for C8: two runs at the same instant from different global
RNG states agree exactly. -/
theorem c8_witness :
    (fetch_price_data 7 5 2 ⟨0⟩).1 = (fetch_price_data 7 5 2 ⟨99⟩).1 :=
  (c8_determinism 7 5 5 2 ⟨0⟩ ⟨99⟩).2.2.2.1 rfl

/-- Counterexample to C8 as stated: the same ticker hash at two
invocation instants one microsecond apart — within the same calendar
day — produces different synthetic price DataFrames, because the date
column embeds the `dt.datetime.today()` timestamp. -/
theorem c8_counterexample :
    (fetch_price_data 600519 0 1 ⟨0⟩).1 ≠ (fetch_price_data 600519 1 1 ⟨0⟩).1 := by
  intro h
  have hd : ((fetch_price_data 600519 0 1 ⟨0⟩).1.map PriceRow.date).getD 0 0 =
      ((fetch_price_data 600519 1 1 ⟨0⟩).1.map PriceRow.date).getD 0 0 := by
    rw [h]
  have h0 : ((fetch_price_data 600519 0 1 ⟨0⟩).1.map PriceRow.date).getD 0 0 =
      0 := by decide
  have h1 : ((fetch_price_data 600519 1 1 ⟨0⟩).1.map PriceRow.date).getD 0 0 =
      1 := by decide
  rw [h0, h1] at hd
  cases hd
